import Mathlib

/-!
Verification of the XRAI aggregation, ranking, graph-building and spatial
layout core against its specification.

The definitions below are a shallow embedding of the JavaScript sources:

* `DataManager.search`, `DataManager.rankResults`,
  `DataManager.calculateRelevance` and `DataManager.convertToGraphData`
  from `src/cosmos-standalone-web/src/data/StressTestData.js`;
* `CosmosLayout.generate`'s sphere-distribution loop from
  `src/unnamed/part_001`;
* the `performSearch` flow of `CosmosVisualizer` quoted in
  `src/knowledge/KEY_LEARNINGS.md`.

JavaScript numbers are modelled as rationals (`ℚ`) except for the layout,
whose trigonometry is modelled over the reals (`ℝ`).  JavaScript strings
are Lean strings; text scanning is done on their character lists.
Optional / possibly-`undefined` fields are `Option` values, and the
JavaScript `x || d` idiom on numbers and strings (which also replaces the
falsy values `0` and `""`) is embedded by the `jsNumOr` / `jsStrOr`
helpers.
-/

namespace XRAI

/-- Whitespace test used by the embedded JavaScript regular expression
split on white space; covers the ASCII whitespace characters that the
regex class matches. -/
def jsWs (c : Char) : Bool :=
  c == ' ' || c == '\t' || c == '\n' || c == '\r' || c == '\x0b' || c == '\x0c'

/-- Lower-casing of a character list, one character at a time, matching
the behaviour of JavaScript toLowerCase on ASCII text. -/
def lowerChars (s : List Char) : List Char := s.map Char.toLower

/-- Substring test: JavaScript hay.includes(needle) holds exactly when
the needle occurs contiguously inside the haystack. -/
def includesChars (hay needle : List Char) : Bool := decide (needle <:+: hay)

/-- Split of a character list at maximal runs of whitespace, embedding
the JavaScript split on a whitespace regex: a run of whitespace at the
start or end of the string contributes an empty piece on that side, and
an empty input yields one empty piece. -/
def splitWs : List Char → List (List Char)
  | [] => [[]]
  | c :: cs =>
    if jsWs c then
      match cs with
      | [] => [] :: splitWs cs
      | c2 :: _ => if jsWs c2 then splitWs cs else [] :: splitWs cs
    else
      match splitWs cs with
      | [] => [[c]]
      | t :: ts => (c :: t) :: ts

/-- JavaScript o || d for an optional number: an absent value and the
falsy number 0 are both replaced by the default. -/
def jsNumOr (o : Option ℚ) (d : ℚ) : ℚ :=
  match o with
  | none => d
  | some x => if x = 0 then d else x

/-- JavaScript o || d for an optional string: an absent value and the
falsy empty string are both replaced by the default. -/
def jsStrOr (o : Option String) (d : String) : String :=
  match o with
  | none => d
  | some s => if s = "" then d else s

/-- Relationship entry carried by a record, as consumed by
convertToGraphData: a target id and an optional strength. -/
structure Relationship where
  target : String
  strength : Option ℚ
deriving DecidableEq, Repr

/-- Record produced by a search provider, restricted to the fields that
the DataManager pipeline reads: id, name, title, description, source,
type, relevance and relationships.  A `none` field models an absent
(undefined) property on the JavaScript object. -/
structure Record where
  id : Option String
  name : Option String
  title : Option String
  description : Option String
  source : Option String
  type : Option String
  relevance : Option ℚ
  relationships : Option (List Relationship)
deriving DecidableEq, Repr

/-- Record with every field absent; concrete records are built from it
by overriding fields. -/
def rEmpty : Record := ⟨none, none, none, none, none, none, none, none⟩

/-- Candidate text a record is scored on: its name and description (each
defaulted to the empty string) joined by a space and lower-cased, as in
DataManager.calculateRelevance. -/
def candidateText (result : Record) : List Char :=
  lowerChars (jsStrOr result.name "" ++ " " ++ jsStrOr result.description "").data

namespace DataManager

/-- Relevance score of a record for a query, embedded from
DataManager.calculateRelevance: lower-case the query and the
name-space-description text, add 0.5 when the text contains the whole
query, add 0.3 divided by the word count for every whitespace-delimited
word of the query contained in the text, and cap the total at 1. -/
def calculateRelevance (query : String) (result : Record) : ℚ :=
  let queryLower := lowerChars query.data
  let text := candidateText result
  let score1 : ℚ := if includesChars text queryLower then mkRat 1 2 else 0
  let words := splitWs queryLower
  let score2 :=
    words.foldl
      (fun acc w => if includesChars text w then acc + mkRat 3 10 / (words.length : ℚ) else acc)
      score1
  min score2 1

/-- Sort key used by rankResults' comparator: the relevance field with
the JavaScript fallback of 0 for an absent value. -/
def relKey (r : Record) : ℚ :=
  match r.relevance with
  | none => 0
  | some x => x

/-- First step of rankResults: map every record to a copy whose
relevance field holds its computed score. -/
def scoreRecords (results : List Record) (query : String) : List Record :=
  results.map (fun r => { r with relevance := some (calculateRelevance query r) })

/-- Insertion of a record into a list so that it lands before the first
element whose key does not exceed its own; on a descending-sorted list
this keeps earlier-inserted equal keys behind the new element. -/
def insertDesc (x : Record) : List Record → List Record
  | [] => [x]
  | y :: ys => if relKey y ≤ relKey x then x :: y :: ys else y :: insertDesc x ys

/-- Stable descending sort by relevance key.  JavaScript's sort is
stable and the comparator compares relevance descending, which
determines the output uniquely: sorted descending with ties in input
order.  Folding insertDesc from the right produces exactly that list.  -/
def sortDesc (l : List Record) : List Record := l.foldr insertDesc []

/-- Ranking of search results, embedded from DataManager.rankResults:
attach relevance scores, sort descending by relevance (stable), then
keep the first 100 entries. -/
def rankResults (results : List Record) (query : String) : List Record :=
  (sortDesc (scoreRecords results query)).take 100

/-- Graph node assembled by convertToGraphData.  Only the fields the
core reads downstream are kept: id, display name, type and value. -/
structure GraphNode where
  id : String
  name : String
  type : String
  val : ℚ
deriving DecidableEq, Repr

/-- Graph link assembled by convertToGraphData.  The source is the raw
id field of the originating record, which the code never checks, so it
may be absent; the target is always a concrete id string. -/
structure GraphLink where
  source : Option String
  target : String
  value : ℚ
deriving DecidableEq, Repr

/-- Graph returned by convertToGraphData. -/
structure Graph where
  nodes : List GraphNode
  links : List GraphLink
deriving DecidableEq, Repr

/-- Node built from one record, embedding the object literal in
convertToGraphData together with the trailing spread of the record's own
properties: a present field wins over the computed default, an absent
one falls back to the default (positional id, title-or-Untitled name,
source-or-unknown type, relevance-or-1 value, with JavaScript falsiness
of empty strings and zero in the defaults). -/
def mkNode (i : ℕ) (item : Record) : GraphNode :=
  { id :=
      match item.id with
      | some s => s
      | none => "node-" ++ toString i
    name :=
      match item.name with
      | some s => s
      | none =>
        match item.title with
        | some t => if t = "" then "Untitled" else t
        | none => "Untitled"
    type :=
      match item.type with
      | some t => t
      | none =>
        match item.source with
        | some s => if s = "" then "unknown" else s
        | none => "unknown"
    val :=
      match item.relevance with
      | some v => if v = 0 then 1 else v
      | none => 1 }

/-- Node list of the built graph: one node per input record, in input
order, indexed positionally. -/
def buildNodes (items : List Record) : List GraphNode :=
  items.enum.map (fun p => mkNode p.1 p.2)

/-- Ids of a node list, in order; this is the key set of the lookup map
the code fills before processing relationships. -/
def nodeIds (nodes : List GraphNode) : List String :=
  nodes.map GraphNode.id

/-- Links derived from explicit record relationships: for each record,
each relationship whose target id is a known node id becomes a link from
the record's raw id to that target with the relationship's strength
defaulted to 1; other relationships are dropped. -/
def explicitLinks (items : List Record) (ids : List String) : List GraphLink :=
  items.flatMap (fun item =>
    (item.relationships.getD []).filterMap (fun rel =>
      if rel.target ∈ ids then
        some { source := item.id, target := rel.target, value := jsNumOr rel.strength 1 }
      else none))

/-- Keys of the type-grouping map in first-occurrence order, matching
insertion order of a JavaScript Map. -/
def firstKeys (l : List String) : List String :=
  l.foldl (fun acc t => if t ∈ acc then acc else acc ++ [t]) []

/-- Chain links over a node group: consecutive nodes are connected with
strength one half. -/
def chainLinks : List GraphNode → List GraphLink
  | a :: b :: rest =>
    { source := some a.id, target := b.id, value := mkRat 1 2 } :: chainLinks (b :: rest)
  | _ => []

/-- Fallback links synthesized when no explicit link exists: nodes are
grouped by type (groups in first-occurrence order, members in node
order) and each group is chained consecutively. -/
def fallbackLinks (nodes : List GraphNode) : List GraphLink :=
  (firstKeys (nodes.map GraphNode.type)).flatMap
    (fun t => chainLinks (nodes.filter (fun n => n.type == t)))

/-- Conversion of ranked records to a graph, embedded from
DataManager.convertToGraphData: build one node per record, derive links
from explicit relationships, and when that yields no link while at least
two nodes exist, synthesize the fallback chain links instead. -/
def convertToGraphData (items : List Record) : Graph :=
  let nodes := buildNodes items
  let links := explicitLinks items (nodeIds nodes)
  { nodes := nodes
    links := if links.length = 0 ∧ 1 < nodes.length then fallbackLinks nodes else links }

/-- Outcome of one provider's search call for the query at hand: either
a resolved record list or a rejection. -/
inductive ProviderOutcome where
  | ok (records : List Record)
  | failure
deriving DecidableEq, Repr

/-- Keys of the provider registry object, in declaration order. -/
def registeredSources : List String := ["icosa", "objaverse", "github", "web", "local"]

/-- Source list actually searched: the full registry when the request
contains the tag all, otherwise the request list itself. -/
def activeSources (sources : List String) : List String :=
  if "all" ∈ sources then registeredSources else sources

/-- Per-source entry of the promise array built by DataManager.search:
for a registered source the provider's outcome with a rejection caught
and replaced by an empty list; for an unregistered source the optional
chain short-circuits and the slot holds no record list at all. -/
def providerContribution (outcomes : String → ProviderOutcome) (source : String) :
    Option (List Record) :=
  if source ∈ registeredSources then
    some (match outcomes source with
          | ProviderOutcome.ok rs => rs
          | ProviderOutcome.failure => [])
  else none

/-- Merged record list of DataManager.search: contributions of the
active sources concatenated in order, slots that are not record lists
skipped. -/
def mergedRecords (outcomes : String → ProviderOutcome) (sources : List String) :
    List Record :=
  (activeSources sources).flatMap (fun s => (providerContribution outcomes s).getD [])

/-- Search entry point, embedded from DataManager.search: merge the
active sources' contributions and rank them for the query. -/
def search (outcomes : String → ProviderOutcome) (query : String)
    (sources : List String) : List Record :=
  rankResults (mergedRecords outcomes sources) query

/-- Outcome assignment equal to a given one except that one source's
search rejects. -/
def failAt (outcomes : String → ProviderOutcome) (s₀ : String) :
    String → ProviderOutcome :=
  fun s => if s = s₀ then ProviderOutcome.failure else outcomes s

/-- Outcome assignment equal to a given one except that one source's
search resolves with no records. -/
def okEmptyAt (outcomes : String → ProviderOutcome) (s₀ : String) :
    String → ProviderOutcome :=
  fun s => if s = s₀ then ProviderOutcome.ok [] else outcomes s

end DataManager

/-- Relevance scoring transcribed from the specification's own words, for
comparison with the embedded code: s is 0.5 when the candidate text
contains the whole lowercased query plus, for each whitespace-delimited
word of the query contained in the text, 0.3 divided by the word count;
the relevance is min(1, s). -/
def relevanceSpec (query : String) (result : Record) : ℚ :=
  let queryLower := lowerChars query.data
  let text := candidateText result
  let words := splitWs queryLower
  let fullBonus : ℚ := if includesChars text queryLower then mkRat 1 2 else 0
  let wordScore : ℚ :=
    ((words.filter (fun w => includesChars text w)).length : ℚ) *
      (mkRat 3 10 / (words.length : ℚ))
  min 1 (fullBonus + wordScore)

namespace CosmosLayout

/-- Inclination angle of node index i among n nodes, embedded from the
sphere-distribution loop of CosmosLayout.generate. -/
noncomputable def phi (n i : ℕ) : ℝ :=
  Real.arccos (1 - 2 * ((i : ℝ) + 1/2) / (n : ℝ))

/-- Azimuth angle of node index i, embedded from CosmosLayout.generate:
pi times one plus the square root of five, times the index. -/
noncomputable def theta (i : ℕ) : ℝ :=
  Real.pi * (1 + Real.sqrt 5) * (i : ℝ)

/-- Radius for one node given its random jitter sample in [0,1):
50 plus 30 times the sample, hence a value in [50, 80). -/
def radius (jitter : ℝ) : ℝ := 50 + jitter * 30

/-- Position assigned to node index i of n nodes, embedded from
CosmosLayout.generate's spherical coordinates. -/
noncomputable def position (n i : ℕ) (jitter : ℝ) : ℝ × ℝ × ℝ :=
  (radius jitter * Real.sin (phi n i) * Real.cos (theta i),
   radius jitter * Real.sin (phi n i) * Real.sin (theta i),
   radius jitter * Real.cos (phi n i))

/-- Unit direction of node index i: the angular part of the position,
which does not depend on the jitter sample. -/
noncomputable def sphereDir (n i : ℕ) : ℝ × ℝ × ℝ :=
  (Real.sin (phi n i) * Real.cos (theta i),
   Real.sin (phi n i) * Real.sin (theta i),
   Real.cos (phi n i))

/-- Componentwise scaling of a vector. -/
def scaleVec (r : ℝ) (p : ℝ × ℝ × ℝ) : ℝ × ℝ × ℝ :=
  (r * p.1, r * p.2.1, r * p.2.2)

/-- Euclidean length of a position vector. -/
noncomputable def norm3 (p : ℝ × ℝ × ℝ) : ℝ :=
  Real.sqrt (p.1 ^ 2 + p.2.1 ^ 2 + p.2.2 ^ 2)

/-- Positions produced by one run of CosmosLayout.generate over a node
list, the run's stream of random jitter samples given as a function of
the node index. -/
noncomputable def generate (nodes : List DataManager.GraphNode) (jitter : ℕ → ℝ) :
    List (ℝ × ℝ × ℝ) :=
  (List.range nodes.length).map (fun i => position nodes.length i (jitter i))

end CosmosLayout

namespace CosmosVisualizer

/-- Final displayed graph after a sequence of completed performSearch
calls, listed in resolution order.  Embedded from the performSearch
method of CosmosVisualizer quoted in src/knowledge/KEY_LEARNINGS.md:
every call that completes passes its own converted result to
updateVisualization unconditionally — there is no generation counter and
no staleness check — so the graph left on screen is the one of the call
that resolved last, regardless of issue order. -/
def displayedAfter (completions : List DataManager.Graph) : Option DataManager.Graph :=
  completions.getLast?

end CosmosVisualizer

/-- Bound test on one relationship's optional strength: absent, or a
value between 0 and 1. -/
def strengthOKb (rel : Relationship) : Bool :=
  match rel.strength with
  | none => true
  | some s => decide (0 ≤ s ∧ s ≤ 1)

/-- Candidate record of the relevance scenario: name Damaged Helmet. -/
def damagedHelmet : Record := { rEmpty with name := some "Damaged Helmet" }

/-- Record with id a and no other field. -/
def recIdA : Record := { rEmpty with id := some "a" }

/-- Second record with id a, carrying the name dup. -/
def recIdADup : Record := { rEmpty with id := some "a", name := some "dup" }

/-- Record with no id but one relationship targeting id a. -/
def recNoIdRel : Record := { rEmpty with relationships := some [⟨"a", none⟩] }

/-- Record with id p of source type icosa and no relationships. -/
def recP : Record := { rEmpty with id := some "p", source := some "icosa" }

/-- Record with id q of source type icosa and no relationships. -/
def recQ : Record := { rEmpty with id := some "q", source := some "icosa" }

/-- Record with id x and one relationship of strength 1 targeting y. -/
def recX : Record := { rEmpty with id := some "x", relationships := some [⟨"y", some 1⟩] }

/-- Record with id y and no other field. -/
def recY : Record := { rEmpty with id := some "y" }

/-- Record with id x and one relationship of strength 2 targeting y. -/
def recStr2 : Record := { rEmpty with id := some "x", relationships := some [⟨"y", some 2⟩] }

/-- Record with id x and one relationship of strength one half targeting y. -/
def recHalf : Record :=
  { rEmpty with id := some "x", relationships := some [⟨"y", some (mkRat 1 2)⟩] }

/-- Twelve identical graph nodes, enough to drive the layout at n 12. -/
def twelveNodes : List DataManager.GraphNode :=
  List.replicate 12 ⟨"n", "n", "unknown", 1⟩

/-- Graph produced for the first query of the superseded-query scenario. -/
def q1Graph : DataManager.Graph :=
  DataManager.convertToGraphData [{ rEmpty with id := some "q1-res" }]

/-- Graph produced for the second query of the superseded-query scenario. -/
def q2Graph : DataManager.Graph :=
  DataManager.convertToGraphData [{ rEmpty with id := some "q2-res" }]

/-!  Theorems.  -/

/-- Value of the two rational literals used by the scorer. -/
theorem mkRat_half_eq : (mkRat 1 2 : ℚ) = 1/2 := by
  rw [Rat.mkRat_eq_div]; norm_num

/-- Value of the word-bonus rational literal used by the scorer. -/
theorem mkRat_threeTenths_eq : (mkRat 3 10 : ℚ) = 3/10 := by
  rw [Rat.mkRat_eq_div]; norm_num

/-- Folding the conditional accumulator over a word list adds the bonus
once per word satisfying the test. -/
theorem foldl_add_filter (c : ℚ) (p : List Char → Bool) :
    ∀ (ws : List (List Char)) (s : ℚ),
      ws.foldl (fun acc w => if p w then acc + c else acc) s
        = s + ((ws.filter p).length : ℚ) * c := by
  intro ws
  induction ws with
  | nil => intro s; simp
  | cons w ws ih =>
    intro s
    by_cases h : p w
    · simp only [List.foldl_cons, List.filter_cons, h, if_true, ih (s + c),
        List.length_cons]
      push_cast
      ring
    · simp only [List.foldl_cons, List.filter_cons, h, if_false, ih s,
        Bool.false_eq_true]

/-- C1: for every query string and record the computed relevance equals
min(1, s), where s adds 0.5 when the lowercased candidate text contains
the lowercased full query and 0.3 divided by the word count for every
whitespace-delimited query word contained in the text; in particular the
query helmet scored against the candidate name Damaged Helmet reaches a
relevance of at least 0.5. -/
theorem xraiC1_relevance :
    (∀ (q : String) (r : Record),
      DataManager.calculateRelevance q r = relevanceSpec q r)
    ∧ mkRat 1 2 ≤ DataManager.calculateRelevance "helmet" damagedHelmet := by
  constructor
  · intro q r
    simp only [DataManager.calculateRelevance, relevanceSpec]
    rw [foldl_add_filter]
    exact min_comm _ _
  · have hfull :
        includesChars (candidateText damagedHelmet) (lowerChars "helmet".data) = true := by
      decide
    simp only [DataManager.calculateRelevance]
    rw [foldl_add_filter, hfull]
    simp only [if_true]
    refine le_min ?_ ?_
    · have hc : (0:ℚ) ≤ mkRat 3 10 / ((splitWs (lowerChars "helmet".data)).length : ℚ) := by
        rw [mkRat_threeTenths_eq]
        positivity
      have hcount :
          (0:ℚ) ≤ (((splitWs (lowerChars "helmet".data)).filter
            (fun w => includesChars (candidateText damagedHelmet) w)).length : ℚ) :=
        Nat.cast_nonneg _
      nlinarith
    · rw [mkRat_half_eq]
      norm_num

namespace DataManager

/-- Membership in an insertion is membership in the inserted element or
the original list. -/
theorem mem_insertDesc (x a : Record) :
    ∀ (l : List Record), a ∈ insertDesc x l ↔ a = x ∨ a ∈ l := by
  intro l
  induction l with
  | nil => simp [insertDesc]
  | cons y ys ih =>
    simp only [insertDesc]
    by_cases h : relKey y ≤ relKey x
    · rw [if_pos h]
      simp [List.mem_cons]
    · rw [if_neg h]
      simp only [List.mem_cons, ih]
      tauto

/-- Inserting into a descending-sorted list keeps it descending-sorted. -/
theorem sorted_insertDesc (x : Record) (l : List Record)
    (h : List.Sorted (fun a b => relKey b ≤ relKey a) l) :
    List.Sorted (fun a b => relKey b ≤ relKey a) (insertDesc x l) := by
  induction l with
  | nil => simp [insertDesc]
  | cons y ys ih =>
    rw [List.sorted_cons] at h
    obtain ⟨hy, hys⟩ := h
    simp only [insertDesc]
    by_cases hcmp : relKey y ≤ relKey x
    · rw [if_pos hcmp, List.sorted_cons]
      refine ⟨?_, ?_⟩
      · intro b hb
        rcases List.mem_cons.mp hb with heq | hb2
        · rw [heq]; exact hcmp
        · exact le_trans (hy b hb2) hcmp
      · rw [List.sorted_cons]
        exact ⟨hy, hys⟩
    · rw [if_neg hcmp, List.sorted_cons]
      refine ⟨?_, ih hys⟩
      intro b hb
      rcases (mem_insertDesc x b ys).mp hb with heq | hb2
      · rw [heq]
        exact le_of_lt (not_le.mp hcmp)
      · exact hy b hb2

/-- An insertion is a permutation of consing the element on the front. -/
theorem perm_insertDesc (x : Record) (l : List Record) :
    List.Perm (insertDesc x l) (x :: l) := by
  induction l with
  | nil => simp [insertDesc]
  | cons y ys ih =>
    simp only [insertDesc]
    by_cases h : relKey y ≤ relKey x
    · rw [if_pos h]
    · rw [if_neg h]
      exact (ih.cons y).trans (List.Perm.swap x y ys)

/-- The sort output is descending-sorted by relevance key. -/
theorem sorted_sortDesc (l : List Record) :
    List.Sorted (fun a b => relKey b ≤ relKey a) (sortDesc l) := by
  induction l with
  | nil => simp [sortDesc]
  | cons x xs ih => exact sorted_insertDesc x _ ih

/-- The sort output is a permutation of its input. -/
theorem perm_sortDesc (l : List Record) : List.Perm (sortDesc l) l := by
  induction l with
  | nil => simp [sortDesc]
  | cons x xs ih => exact (perm_insertDesc x (sortDesc xs)).trans (ih.cons x)

/-- Stability at the level of one insertion: restricted to any fixed
key, the insertion puts the new element in front exactly when it has
that key, because every element it moved past has a strictly larger key. -/
theorem filter_insertDesc (x : Record) (v : ℚ) :
    ∀ (l : List Record),
      (insertDesc x l).filter (fun e => decide (relKey e = v))
        = if relKey x = v then x :: l.filter (fun e => decide (relKey e = v))
          else l.filter (fun e => decide (relKey e = v)) := by
  intro l
  induction l with
  | nil =>
    by_cases h : relKey x = v <;> simp [insertDesc, h]
  | cons y ys ih =>
    simp only [insertDesc]
    by_cases hcmp : relKey y ≤ relKey x
    · rw [if_pos hcmp]
      by_cases hx : relKey x = v <;> simp [List.filter_cons, hx]
    · rw [if_neg hcmp, List.filter_cons, ih]
      by_cases hy : relKey y = v
      · have hx : ¬ relKey x = v := by
          intro hx
          exact hcmp (le_of_eq (hy.trans hx.symm))
        simp [List.filter_cons, hy, hx]
      · simp [List.filter_cons, hy]

/-- Stability of the sort: restricted to any fixed key, the sorted list
equals the input list, so equal-key elements keep their input order. -/
theorem filter_sortDesc (v : ℚ) (l : List Record) :
    (sortDesc l).filter (fun e => decide (relKey e = v))
      = l.filter (fun e => decide (relKey e = v)) := by
  induction l with
  | nil => rfl
  | cons x xs ih =>
    show (insertDesc x (sortDesc xs)).filter _ = _
    rw [filter_insertDesc, List.filter_cons]
    by_cases hx : relKey x = v
    · rw [if_pos hx, ih]
      simp [hx]
    · rw [if_neg hx, ih]
      simp [hx]

/-- Relevance scores are never negative. -/
theorem calculateRelevance_nonneg (q : String) (r : Record) :
    0 ≤ calculateRelevance q r := by
  simp only [calculateRelevance]
  rw [foldl_add_filter]
  refine le_min ?_ (by norm_num)
  have hs1 : (0:ℚ) ≤ if includesChars (candidateText r) (lowerChars q.data) then mkRat 1 2 else 0 := by
    by_cases h : includesChars (candidateText r) (lowerChars q.data) = true
    · rw [if_pos h, mkRat_half_eq]; norm_num
    · rw [if_neg h]
  have hc : (0:ℚ) ≤ mkRat 3 10 / ((splitWs (lowerChars q.data)).length : ℚ) := by
    rw [mkRat_threeTenths_eq]
    positivity
  have hcount :
      (0:ℚ) ≤ ((List.filter (includesChars (candidateText r))
        (splitWs (lowerChars q.data))).length : ℚ) :=
    Nat.cast_nonneg _
  have hmul := mul_nonneg hcount hc
  exact add_nonneg hs1 hmul

/-- Relevance scores never exceed one. -/
theorem calculateRelevance_le_one (q : String) (r : Record) :
    calculateRelevance q r ≤ 1 := by
  simp only [calculateRelevance]
  exact min_le_right _ _

end DataManager

/-- C2: ranking returns at most 100 entries, sorted non-increasing by
relevance, every entry's relevance lies between 0 and 1, equal-relevance
entries keep their input relative order (the output restricted to one
relevance value is a prefix of the scored input so restricted), and the
truncation to 100 is applied to the fully sorted list. -/
theorem xraiC2_rank (results : List Record) (query : String) :
    (DataManager.rankResults results query).length ≤ 100
    ∧ List.Sorted (fun a b => DataManager.relKey b ≤ DataManager.relKey a)
        (DataManager.rankResults results query)
    ∧ (∀ e ∈ DataManager.rankResults results query,
        ∃ v : ℚ, e.relevance = some v ∧ 0 ≤ v ∧ v ≤ 1)
    ∧ (∀ v : ℚ,
        (DataManager.rankResults results query).filter
            (fun e => decide (DataManager.relKey e = v))
          <+: (DataManager.scoreRecords results query).filter
            (fun e => decide (DataManager.relKey e = v)))
    ∧ DataManager.rankResults results query
        = (DataManager.sortDesc (DataManager.scoreRecords results query)).take 100 := by
  refine ⟨?_, ?_, ?_, ?_, rfl⟩
  · simp only [DataManager.rankResults, List.length_take]
    exact min_le_left _ _
  · exact (DataManager.sorted_sortDesc _).sublist (List.take_sublist _ _)
  · intro e he
    have he2 : e ∈ DataManager.scoreRecords results query :=
      (DataManager.perm_sortDesc _).subset (List.mem_of_mem_take he)
    obtain ⟨a, _, rfl⟩ := List.mem_map.mp he2
    exact ⟨DataManager.calculateRelevance query a, rfl,
      DataManager.calculateRelevance_nonneg _ _,
      DataManager.calculateRelevance_le_one _ _⟩
  · intro v
    have h1 : DataManager.rankResults results query
        <+: DataManager.sortDesc (DataManager.scoreRecords results query) :=
      List.take_prefix _ _
    have h2 := h1.filter (fun e => decide (DataManager.relKey e = v))
    rw [DataManager.filter_sortDesc] at h2
    exact h2

/-- Witness instantiating the ranking theorem on a concrete record list. -/
theorem xraiC2_rank_witness :
    (DataManager.rankResults [damagedHelmet] "helmet").length ≤ 100
    ∧ List.Sorted (fun a b => DataManager.relKey b ≤ DataManager.relKey a)
        (DataManager.rankResults [damagedHelmet] "helmet") :=
  ⟨(xraiC2_rank [damagedHelmet] "helmet").1, (xraiC2_rank [damagedHelmet] "helmet").2.1⟩

namespace DataManager

/-- Every chain link connects two members of its group, with strength
one half. -/
theorem chainLinks_shape (l : GraphLink) :
    ∀ (g : List GraphNode), l ∈ chainLinks g →
      ∃ a ∈ g, ∃ b ∈ g,
        l = { source := some a.id, target := b.id, value := mkRat 1 2 } := by
  intro g
  induction g with
  | nil => intro h; simp [chainLinks] at h
  | cons a tl ih =>
    cases tl with
    | nil => intro h; simp [chainLinks] at h
    | cons b rest =>
      intro h
      simp only [chainLinks] at h
      rcases List.mem_cons.mp h with heq | hmem
      · exact ⟨a, by simp, b, by simp, heq⟩
      · obtain ⟨a2, ha2, b2, hb2, heq⟩ := ih hmem
        exact ⟨a2, List.mem_cons_of_mem a ha2, b2, List.mem_cons_of_mem a hb2, heq⟩

/-- Every fallback link connects two nodes of the node list, with
strength one half. -/
theorem fallbackLinks_shape (nodes : List GraphNode) (l : GraphLink)
    (h : l ∈ fallbackLinks nodes) :
    ∃ a ∈ nodes, ∃ b ∈ nodes,
      l = { source := some a.id, target := b.id, value := mkRat 1 2 } := by
  simp only [fallbackLinks, List.mem_flatMap] at h
  obtain ⟨t, _, hmem⟩ := h
  obtain ⟨a, ha, b, hb, heq⟩ := chainLinks_shape l _ hmem
  exact ⟨a, List.mem_of_mem_filter ha, b, List.mem_of_mem_filter hb, heq⟩

/-- Every explicit link comes from a relationship of some record whose
target was found among the known ids, with the record's raw id as source
and the defaulted strength as value. -/
theorem explicitLinks_shape (items : List Record) (ids : List String) (l : GraphLink)
    (h : l ∈ explicitLinks items ids) :
    ∃ item ∈ items, ∃ rel ∈ item.relationships.getD [],
      rel.target ∈ ids
      ∧ l = { source := item.id, target := rel.target, value := jsNumOr rel.strength 1 } := by
  simp only [explicitLinks, List.mem_flatMap] at h
  obtain ⟨item, hitem, hmem⟩ := h
  rw [List.mem_filterMap] at hmem
  obtain ⟨rel, hrel, heq⟩ := hmem
  by_cases ht : rel.target ∈ ids
  · rw [if_pos ht] at heq
    exact ⟨item, hitem, rel, hrel, ht, (Option.some_inj.mp heq).symm⟩
  · rw [if_neg ht] at heq
    cases heq

/-- A record with a present id contributes that id to the id list of the
built node set. -/
theorem mem_enumFrom_nodeIds (s : String) :
    ∀ (items : List Record) (n : ℕ) (item : Record), item ∈ items → item.id = some s →
      s ∈ (List.enumFrom n items).map (fun p => (mkNode p.1 p.2).id) := by
  intro items
  induction items with
  | nil => intro n item h; cases h
  | cons y ys ih =>
    intro n item h hs
    rcases List.mem_cons.mp h with heq | hmem
    · apply List.mem_map.mpr
      refine ⟨(n, y), by simp, ?_⟩
      rw [heq] at hs
      simp [mkNode, hs]
    · obtain ⟨p, hp, hpe⟩ := List.mem_map.mp (ih (n + 1) item hmem hs)
      exact List.mem_map.mpr ⟨p, by simp [hp], hpe⟩

/-- The id list of the built node set, written over the enumeration. -/
theorem nodeIds_buildNodes (items : List Record) :
    nodeIds (buildNodes items)
      = (List.enumFrom 0 items).map (fun p => (mkNode p.1 p.2).id) := by
  simp [nodeIds, buildNodes, List.map_map, List.enum]

end DataManager

/-- C3 counterexample: the graph built from two records sharing id a
holds two nodes with id a, not exactly one. -/
theorem xraiC3_counterexample :
    ((DataManager.convertToGraphData [recIdA, recIdADup]).nodes.filter
        (fun n => n.id == "a")).length = 2
    ∧ ((DataManager.convertToGraphData [recIdA, recIdADup]).nodes.filter
        (fun n => n.id == "a")).length ≠ 1 := by
  decide

/-- C3 amended: the builder creates one node per input record in input
order, so records sharing an id yield duplicate node ids instead of
overwriting; only the auxiliary target-lookup map is last-write-wins.
On the two records with id a the node list has both, the second node
carrying the name dup. -/
theorem xraiC3_nodes :
    (∀ items : List Record,
      (DataManager.convertToGraphData items).nodes.length = items.length)
    ∧ (DataManager.convertToGraphData [recIdA, recIdADup]).nodes.map
        (fun n => (n.id, n.name)) = [("a", "Untitled"), ("a", "dup")] := by
  constructor
  · intro items
    show (DataManager.buildNodes items).length = _
    simp [DataManager.buildNodes]
  · decide

/-- C4 counterexample: a record without an id whose relationship targets
an existing node produces a link whose source is not among the node ids
(the raw undefined id is used as source, unchecked). -/
theorem xraiC4_counterexample :
    ¬ (∀ l ∈ (DataManager.convertToGraphData [recNoIdRel, recIdA]).links,
        (∃ n ∈ (DataManager.convertToGraphData [recNoIdRel, recIdA]).nodes,
          some n.id = l.source)
        ∧ (∃ n ∈ (DataManager.convertToGraphData [recNoIdRel, recIdA]).nodes,
          n.id = l.target)) := by
  decide

/-- C4 amended: provided every input record carries an id, every link of
the built graph has both endpoints among the built node ids; a
relationship whose target id is unknown produces no link.  Without that
proviso the target is still always checked, but the source is copied
from the record's raw id unchecked. -/
theorem xraiC4_link_endpoints :
    ∀ (items : List Record), (∀ rec ∈ items, rec.id ≠ none) →
      ∀ l ∈ (DataManager.convertToGraphData items).links,
        (∃ n ∈ (DataManager.convertToGraphData items).nodes, some n.id = l.source)
        ∧ (∃ n ∈ (DataManager.convertToGraphData items).nodes, n.id = l.target) := by
  intro items hid l hl
  have hlinks : (DataManager.convertToGraphData items).links
      = if (DataManager.explicitLinks items
              (DataManager.nodeIds (DataManager.buildNodes items))).length = 0
            ∧ 1 < (DataManager.buildNodes items).length
        then DataManager.fallbackLinks (DataManager.buildNodes items)
        else DataManager.explicitLinks items
              (DataManager.nodeIds (DataManager.buildNodes items)) := rfl
  rw [hlinks] at hl
  by_cases hcond : (DataManager.explicitLinks items
        (DataManager.nodeIds (DataManager.buildNodes items))).length = 0
      ∧ 1 < (DataManager.buildNodes items).length
  · rw [if_pos hcond] at hl
    obtain ⟨a, ha, b, hb, heq⟩ := DataManager.fallbackLinks_shape _ l hl
    subst heq
    exact ⟨⟨a, ha, rfl⟩, ⟨b, hb, rfl⟩⟩
  · rw [if_neg hcond] at hl
    obtain ⟨item, hitem, rel, _, htgt, heq⟩ := DataManager.explicitLinks_shape _ _ l hl
    subst heq
    constructor
    · obtain ⟨s, hs⟩ := Option.ne_none_iff_exists'.mp (hid item hitem)
      have hmem : s ∈ DataManager.nodeIds (DataManager.buildNodes items) := by
        rw [DataManager.nodeIds_buildNodes]
        exact DataManager.mem_enumFrom_nodeIds s items 0 item hitem hs
      obtain ⟨n, hn, hne⟩ := List.mem_map.mp hmem
      exact ⟨n, hn, by rw [hne, hs]⟩
    · obtain ⟨n, hn, hne⟩ := List.mem_map.mp htgt
      exact ⟨n, hn, hne⟩

/-- Witness instantiating the link-endpoint theorem on two records with
ids and one explicit relationship. -/
theorem xraiC4_link_endpoints_witness :
    (∀ rec ∈ [recX, recY], rec.id ≠ none)
    ∧ (∀ l ∈ (DataManager.convertToGraphData [recX, recY]).links,
        (∃ n ∈ (DataManager.convertToGraphData [recX, recY]).nodes, some n.id = l.source)
        ∧ (∃ n ∈ (DataManager.convertToGraphData [recX, recY]).nodes, n.id = l.target)) :=
  ⟨by decide, xraiC4_link_endpoints [recX, recY] (by decide)⟩

/-- C5: when explicit relationships yield at least one link no fallback
is synthesized; when they yield none and at least two nodes exist the
links are exactly the per-type consecutive chains; and on two records of
the same type with no relationships the result is one single link of
strength one half connecting them. -/
theorem xraiC5_fallback :
    (∀ items : List Record,
      DataManager.explicitLinks items
          (DataManager.nodeIds (DataManager.buildNodes items)) ≠ [] →
        (DataManager.convertToGraphData items).links
          = DataManager.explicitLinks items
              (DataManager.nodeIds (DataManager.buildNodes items)))
    ∧ (∀ items : List Record,
        DataManager.explicitLinks items
            (DataManager.nodeIds (DataManager.buildNodes items)) = [] →
        1 < (DataManager.buildNodes items).length →
        (DataManager.convertToGraphData items).links
          = DataManager.fallbackLinks (DataManager.buildNodes items))
    ∧ (DataManager.convertToGraphData [recP, recQ]).links
        = [{ source := some "p", target := "q", value := mkRat 1 2 }] := by
  refine ⟨?_, ?_, by decide⟩
  · intro items hne
    show (if _ ∧ _ then _ else _) = _
    rw [if_neg]
    intro hcond
    exact hne (List.length_eq_zero.mp hcond.1)
  · intro items he hlen
    show (if _ ∧ _ then _ else _) = _
    rw [if_pos ⟨by simp [he], hlen⟩]

/-- Witness instantiating the no-fallback branch on records with one
explicit relationship. -/
theorem xraiC5_fallback_witness :
    DataManager.explicitLinks [recX, recY]
        (DataManager.nodeIds (DataManager.buildNodes [recX, recY])) ≠ []
    ∧ (DataManager.convertToGraphData [recX, recY]).links
        = DataManager.explicitLinks [recX, recY]
            (DataManager.nodeIds (DataManager.buildNodes [recX, recY])) :=
  ⟨by decide, xraiC5_fallback.1 [recX, recY] (by decide)⟩

/-- C8 counterexample: a relationship carrying strength 2 produces a
link whose value is 2, outside the unit interval — the strength is
copied with only a falsy-default, never clamped. -/
theorem xraiC8_counterexample :
    ¬ (∀ l ∈ (DataManager.convertToGraphData [recStr2, recY]).links,
        0 ≤ l.value ∧ l.value ≤ 1) := by
  decide

/-- C8 amended: provided every relationship strength present on the
input records lies in the unit interval, every link of the built graph
has its value in the unit interval: explicit links carry the
relationship strength defaulted to 1 (also replacing a falsy 0), and
fallback links carry one half. -/
theorem xraiC8_strength_bounds :
    ∀ (items : List Record),
      (∀ rec ∈ items, ∀ rel ∈ rec.relationships.getD [], strengthOKb rel = true) →
      ∀ l ∈ (DataManager.convertToGraphData items).links,
        0 ≤ l.value ∧ l.value ≤ 1 := by
  intro items hok l hl
  have hlinks : (DataManager.convertToGraphData items).links
      = if (DataManager.explicitLinks items
              (DataManager.nodeIds (DataManager.buildNodes items))).length = 0
            ∧ 1 < (DataManager.buildNodes items).length
        then DataManager.fallbackLinks (DataManager.buildNodes items)
        else DataManager.explicitLinks items
              (DataManager.nodeIds (DataManager.buildNodes items)) := rfl
  rw [hlinks] at hl
  by_cases hcond : (DataManager.explicitLinks items
        (DataManager.nodeIds (DataManager.buildNodes items))).length = 0
      ∧ 1 < (DataManager.buildNodes items).length
  · rw [if_pos hcond] at hl
    obtain ⟨a, _, b, _, heq⟩ := DataManager.fallbackLinks_shape _ l hl
    subst heq
    rw [mkRat_half_eq]
    norm_num
  · rw [if_neg hcond] at hl
    obtain ⟨item, hitem, rel, hrel, _, heq⟩ := DataManager.explicitLinks_shape _ _ l hl
    subst heq
    have hsok := hok item hitem rel hrel
    cases hstr : rel.strength with
    | none => norm_num [jsNumOr, hstr]
    | some s =>
      rw [strengthOKb, hstr] at hsok
      obtain ⟨h0, h1⟩ := of_decide_eq_true hsok
      by_cases hz : s = 0
      · norm_num [jsNumOr, hstr, hz]
      · simp only [jsNumOr, hstr, if_neg hz]
        exact ⟨h0, h1⟩

/-- Witness instantiating the strength-bound theorem on a relationship
of strength one half. -/
theorem xraiC8_strength_bounds_witness :
    (∀ rec ∈ [recHalf, recY], ∀ rel ∈ rec.relationships.getD [], strengthOKb rel = true)
    ∧ (∀ l ∈ (DataManager.convertToGraphData [recHalf, recY]).links,
        0 ≤ l.value ∧ l.value ≤ 1) :=
  ⟨by decide, xraiC8_strength_bounds [recHalf, recY] (by decide)⟩

/-- Lists mapped by pointwise-equal functions flatten identically. -/
theorem flatMap_congr {α β : Type} (l : List α) (f g : α → List β)
    (h : ∀ x ∈ l, f x = g x) : l.flatMap f = l.flatMap g := by
  induction l with
  | nil => rfl
  | cons x xs ih =>
    simp only [List.flatMap_cons]
    rw [h x (by simp), ih (fun y hy => h y (by simp [hy]))]

/-- C6: a provider whose search rejects is indistinguishable from one
resolving with no records — the overall search result is unchanged and
the other sources' contributions are kept verbatim — and when every
provider fails the search still resolves, with an empty result list. -/
theorem xraiC6_failure_isolation :
    ∀ (outcomes : String → DataManager.ProviderOutcome) (q : String)
      (sources : List String) (s₀ : String),
      DataManager.search (DataManager.failAt outcomes s₀) q sources
        = DataManager.search (DataManager.okEmptyAt outcomes s₀) q sources
      ∧ DataManager.mergedRecords (DataManager.failAt outcomes s₀) sources
          = (DataManager.activeSources sources).flatMap
              (fun s => if s = s₀ then []
                else (DataManager.providerContribution outcomes s).getD [])
      ∧ ((∀ s, outcomes s = DataManager.ProviderOutcome.failure) →
          DataManager.search outcomes q sources = []) := by
  intro outcomes q sources s₀
  have hfail : ∀ s,
      (DataManager.providerContribution (DataManager.failAt outcomes s₀) s).getD []
        = if s = s₀ then []
          else (DataManager.providerContribution outcomes s).getD [] := by
    intro s
    by_cases hs : s = s₀
    · subst hs
      by_cases hr : s ∈ DataManager.registeredSources <;>
        simp [DataManager.providerContribution, DataManager.failAt, hr]
    · simp [DataManager.providerContribution, DataManager.failAt, hs]
  have hempty : ∀ s,
      (DataManager.providerContribution (DataManager.okEmptyAt outcomes s₀) s).getD []
        = if s = s₀ then []
          else (DataManager.providerContribution outcomes s).getD [] := by
    intro s
    by_cases hs : s = s₀
    · subst hs
      by_cases hr : s ∈ DataManager.registeredSources <;>
        simp [DataManager.providerContribution, DataManager.okEmptyAt, hr]
    · simp [DataManager.providerContribution, DataManager.okEmptyAt, hs]
  refine ⟨?_, ?_, ?_⟩
  · unfold DataManager.search
    congr 1
    unfold DataManager.mergedRecords
    exact flatMap_congr _ _ _ (fun s _ => (hfail s).trans (hempty s).symm)
  · unfold DataManager.mergedRecords
    exact flatMap_congr _ _ _ (fun s _ => hfail s)
  · intro hall
    unfold DataManager.search
    have hmerged : DataManager.mergedRecords outcomes sources = [] := by
      unfold DataManager.mergedRecords
      have hz : ∀ s ∈ DataManager.activeSources sources,
          (DataManager.providerContribution outcomes s).getD [] = ([] : List Record) := by
        intro s _
        by_cases hr : s ∈ DataManager.registeredSources <;>
          simp [DataManager.providerContribution, hall s, hr]
      rw [flatMap_congr _ _ (fun _ => []) hz]
      simp
    rw [hmerged]
    rfl

/-- Witness: with every provider failing, the search on all sources
resolves to the empty list. -/
theorem xraiC6_failure_isolation_witness :
    DataManager.search (fun _ => DataManager.ProviderOutcome.failure) "query" ["all"] = [] :=
  (xraiC6_failure_isolation (fun _ => DataManager.ProviderOutcome.failure)
    "query" ["all"] "icosa").2.2 (fun _ => rfl)

/-- C10: a source tag with no registered provider contributes no record
slot at all — its promise slot is skipped when merging — and inserting
such a tag anywhere into the source list leaves the search result
unchanged and raises no error. -/
theorem xraiC10_unknown_source :
    ∀ (outcomes : String → DataManager.ProviderOutcome) (q : String)
      (pre post : List String) (tag : String),
      tag ∉ DataManager.registeredSources → tag ≠ "all" →
      DataManager.providerContribution outcomes tag = none
      ∧ DataManager.search outcomes q (pre ++ tag :: post)
          = DataManager.search outcomes q (pre ++ post) := by
  intro outcomes q pre post tag hreg hall
  constructor
  · simp [DataManager.providerContribution, hreg]
  · unfold DataManager.search
    congr 1
    unfold DataManager.mergedRecords DataManager.activeSources
    by_cases hmem : "all" ∈ pre ++ post
    · rw [if_pos hmem, if_pos]
      rcases List.mem_append.mp hmem with h | h
      · exact List.mem_append_left _ h
      · exact List.mem_append_right _ (List.mem_cons_of_mem _ h)
    · rw [if_neg hmem, if_neg]
      · rw [List.flatMap_append, List.flatMap_append, List.flatMap_cons]
        simp [DataManager.providerContribution, hreg]
      · intro hmem2
        rcases List.mem_append.mp hmem2 with h | h
        · exact hmem (List.mem_append_left _ h)
        · rcases List.mem_cons.mp h with heq | h2
          · exact hall heq.symm
          · exact hmem (List.mem_append_right _ h2)

/-- Witness instantiating the unknown-source theorem on the tag bogus
between two known tags. -/
theorem xraiC10_unknown_source_witness :
    DataManager.providerContribution (fun _ => DataManager.ProviderOutcome.ok []) "bogus" = none
    ∧ DataManager.search (fun _ => DataManager.ProviderOutcome.ok [])
        "q" (["icosa"] ++ "bogus" :: ["web"])
        = DataManager.search (fun _ => DataManager.ProviderOutcome.ok [])
            "q" (["icosa"] ++ ["web"]) :=
  xraiC10_unknown_source (fun _ => DataManager.ProviderOutcome.ok [])
    "q" ["icosa"] ["web"] "bogus" (by decide) (by decide)

/-- C9: per the embedded performSearch, the displayed graph after both
queries complete is that of the call resolving last.  When a first query
Q1 is superseded by Q2 but Q1's providers resolve after Q2's, the screen
shows Q1's graph, which differs from Q2's — there is no generation
counter discarding the stale result as the specification requires. -/
theorem xraiC9_stale_result_race :
    CosmosVisualizer.displayedAfter [q2Graph, q1Graph] = some q1Graph
    ∧ q1Graph ≠ q2Graph := by
  exact ⟨rfl, by decide⟩

namespace CosmosLayout

/-- Squared length of a generated position: the trigonometric factors
cancel, leaving the squared radius. -/
theorem normSq_position (n i : ℕ) (t : ℝ) :
    (position n i t).1 ^ 2 + (position n i t).2.1 ^ 2 + (position n i t).2.2 ^ 2
      = radius t ^ 2 := by
  have h1 := Real.sin_sq_add_cos_sq (theta i)
  have h2 := Real.sin_sq_add_cos_sq (phi n i)
  simp only [position]
  linear_combination (radius t * Real.sin (phi n i)) ^ 2 * h1 + radius t ^ 2 * h2

/-- Length of a generated position: exactly the jittered radius. -/
theorem norm3_position (n i : ℕ) (t : ℝ) (ht : 0 ≤ t) :
    norm3 (position n i t) = radius t := by
  rw [norm3, normSq_position]
  have hr : (0:ℝ) ≤ radius t := by
    simp only [radius]
    nlinarith
  exact Real.sqrt_sq hr

/-- For twelve nodes the inclination argument stays inside the arccos
domain, so the cosine of the inclination recovers it exactly. -/
theorem cos_phi_twelve (i : ℕ) (hi : i < 12) :
    Real.cos (phi 12 i) = 1 - 2 * ((i:ℝ) + 1/2) / 12 := by
  have hile : (i : ℝ) ≤ 11 := by exact_mod_cast Nat.lt_succ_iff.mp hi
  have hge : (0:ℝ) ≤ (i:ℝ) := Nat.cast_nonneg i
  rw [phi]
  rw [show ((12:ℕ):ℝ) = 12 from by norm_num]
  apply Real.cos_arccos
  · linarith
  · linarith

/-- Two indices below twelve with nonnegative jitters receiving the same
position are equal: equal lengths force equal radii, the third
coordinate then forces equal inclination cosines, and the arccos
arguments are distinct for distinct indices. -/
theorem position_inj_twelve (i k : ℕ) (hi : i < 12) (hk : k < 12) (t u : ℝ)
    (ht : 0 ≤ t) (hu : 0 ≤ u)
    (h : position 12 i t = position 12 k u) : i = k := by
  have hnorm : radius t = radius u := by
    have h3 := congrArg norm3 h
    rwa [norm3_position 12 i t ht, norm3_position 12 k u hu] at h3
  have hz : radius t * Real.cos (phi 12 i) = radius u * Real.cos (phi 12 k) := by
    have h4 := congrArg (fun p => p.2.2) h
    simpa [position] using h4
  rw [hnorm] at hz
  have hrpos : radius u ≠ 0 := by
    simp only [radius]
    nlinarith
  have hcos := mul_left_cancel₀ hrpos hz
  rw [cos_phi_twelve i hi, cos_phi_twelve k hk] at hcos
  have hik : (i:ℝ) = (k:ℝ) := by linarith
  exact_mod_cast hik

end CosmosLayout

/-- C7: the layout places node index i of n at the spherical position
determined by phi equal to arccos of 1 minus 2 times (i plus one half)
over n, theta equal to pi times (1 plus the square root of 5) times i,
and a jittered radius in [50, 80); for twelve nodes all positions are
pairwise distinct with length in [50, 80), and a re-run with different
jitter samples keeps the same angular direction per index, varying only
the scalar radius. -/
theorem xraiC7_sphere_layout :
    ∀ (nodes : List DataManager.GraphNode) (jit jit2 : ℕ → ℝ),
      (∀ i, 0 ≤ jit i ∧ jit i < 1) → (∀ i, 0 ≤ jit2 i ∧ jit2 i < 1) →
      nodes.length = 12 →
      (CosmosLayout.generate nodes jit).Pairwise (fun p q => p ≠ q)
      ∧ (∀ p ∈ CosmosLayout.generate nodes jit,
          50 ≤ CosmosLayout.norm3 p ∧ CosmosLayout.norm3 p < 80)
      ∧ (∀ i : ℕ,
          CosmosLayout.position nodes.length i (jit i)
            = CosmosLayout.scaleVec (CosmosLayout.radius (jit i))
                (CosmosLayout.sphereDir nodes.length i)
          ∧ CosmosLayout.position nodes.length i (jit2 i)
            = CosmosLayout.scaleVec (CosmosLayout.radius (jit2 i))
                (CosmosLayout.sphereDir nodes.length i)) := by
  intro nodes jit jit2 hj hj2 h12
  refine ⟨?_, ?_, ?_⟩
  · unfold CosmosLayout.generate
    rw [h12, List.pairwise_map]
    refine List.Pairwise.imp_of_mem ?_ (List.pairwise_lt_range 12)
    intro a b ha hb hab heq
    have ha12 : a < 12 := List.mem_range.mp ha
    have hb12 : b < 12 := List.mem_range.mp hb
    exact absurd
      (CosmosLayout.position_inj_twelve a b ha12 hb12 (jit a) (jit b)
        (hj a).1 (hj b).1 heq)
      (Nat.ne_of_lt hab)
  · intro p hp
    unfold CosmosLayout.generate at hp
    rw [h12] at hp
    obtain ⟨i, hi, rfl⟩ := List.mem_map.mp hp
    rw [CosmosLayout.norm3_position 12 i (jit i) (hj i).1]
    simp only [CosmosLayout.radius]
    have h0 := (hj i).1
    have h1 := (hj i).2
    constructor
    · nlinarith
    · nlinarith
  · intro i
    constructor <;>
      · simp only [CosmosLayout.position, CosmosLayout.scaleVec, CosmosLayout.sphereDir,
          Prod.mk.injEq]
        exact ⟨mul_assoc _ _ _, mul_assoc _ _ _, trivial⟩

/-- Witness instantiating the layout theorem on twelve nodes with the
zero and one-half jitter streams. -/
theorem xraiC7_sphere_layout_witness :
    (CosmosLayout.generate twelveNodes (fun _ => 0)).Pairwise (fun p q => p ≠ q) :=
  (xraiC7_sphere_layout twelveNodes (fun _ => 0) (fun _ => (1:ℝ)/2)
    (fun _ => ⟨le_refl 0, by norm_num⟩) (fun _ => ⟨by norm_num, by norm_num⟩)
    (by simp [twelveNodes])).1

end XRAI
